import Mathlib

/-!
Verification of the hand-off dashboard core (`src/app/page.tsx`).

The development shallowly embeds the pure logic of the page component:
the value classifier `isUseful`, the detail-section builder
(`detailSections` / `addSection`), the aggregate summarizer (`stats`),
the list-row title, and the state transitions performed by `load`,
`loadSignoffs`, the selection effect, and `submitSignoff`.

JavaScript strings are modelled by `String`, with `trim()` and
`toLowerCase()` re-expressed as structurally recursive functions on the
character list (`jsTrim`, `jsLower`) so that every definition evaluates
inside the kernel.  Nullable / possibly-absent fields are `Option String`
(JavaScript `null` and `undefined` behave identically in every use the
page makes of them).  The Supabase client is the external query gateway:
each network call is modelled by passing its result (`Except`) to the
state-transition function, and an insert is modelled by returning the row
that would be sent.

The plain object `byPhase` of `stats` is modelled with JavaScript object
semantics: own properties form an insertion-ordered association list;
reading a missing key falls through to `Object.prototype`, so keys named
after inherited prototype members read a truthy function and the
"increment" concatenates instead of counting (`JVal.junk`); assigning to
the key `"__proto__"` is swallowed by the inherited accessor and stores
nothing; and `Object.entries` enumerates array-index keys first, in
ascending numeric order, before the remaining keys in insertion order.
`Array.prototype.sort` is stable; with `junk` values present its
comparator returns NaN and the engine order is implementation-defined,
so every ordering theorem below restricts to inputs without such values.
-/

/-- Model of JavaScript `String.prototype.trim`: drop leading and trailing
whitespace characters. -/
def jsTrim (s : String) : String :=
  ⟨((s.data.dropWhile Char.isWhitespace).reverse.dropWhile Char.isWhitespace).reverse⟩

/-- Model of JavaScript `String.prototype.toLowerCase` on the ASCII range. -/
def jsLower (s : String) : String :=
  ⟨s.data.map Char.toLower⟩

/-- A JavaScript value as far as `isUseful` can distinguish them:
`null`, `undefined`, a string, or any other (non-string, non-nullish)
value. -/
inductive JSValue where
  | null
  | undef
  | str (s : String)
  | obj
deriving DecidableEq

/-- `isUseful` from `src/app/page.tsx` lines 50-57: `null`/`undefined` are
not useful; a string is useful unless it trims and lowercases to the empty
string or one of the sentinel tokens; every other value is useful. -/
def isUseful : JSValue → Bool
  | .null => false
  | .undef => false
  | .str v =>
    let s := jsLower (jsTrim v)
    s != "" && s != "n/a" && s != "na" && s != "null" && s != "undefined"
  | .obj => true

/-- `isUseful` applied to an optional string field of a record. -/
def isUsefulOpt (v : Option String) : Bool :=
  isUseful (match v with | none => .undef | some s => .str s)

/-- The `Handoff` row type (`src/app/page.tsx` lines 6-32); every field
beyond `id` and `created_at` is an optional string. -/
structure Handoff where
  id : String
  created_at : String
  summary : Option String := none
  phase : Option String := none
  reported_by : Option String := none
  reported_role : Option String := none
  client_name : Option String := none
  pain_points : Option String := none
  budget : Option String := none
  priority : Option String := none
  ai_models_discussed : Option String := none
  technical_constraints : Option String := none
  api_information : Option String := none
  edge_cases : Option String := none
  latency_requirements : Option String := none
  gpu_cost_notes : Option String := none
  docker_tag : Option String := none
  performance_metrics : Option String := none
  pilot_results : Option String := none
  secret_sauce_notes : Option String := none
deriving DecidableEq

/-- The `Signoff` row type (`src/app/page.tsx` lines 34-42). -/
structure Signoff where
  id : String
  created_at : String
  handoff_id : String
  signed_by_name : String
  signed_by_role : String
  signed_for_phase : String
  notes : Option String := none
deriving DecidableEq

/-- Model of the JavaScript `Date` library as used by `niceTime`:
`parse` stands for `new Date(ts).getTime()` (`none` when the result is
`NaN`) and `format` for `Date.prototype.toLocaleString`. -/
structure DateEnv where
  parse : String → Option Int
  format : Int → String

/-- `niceTime` (`src/app/page.tsx` lines 44-48): a missing or empty
timestamp renders as `"n/a"`, an unparseable one verbatim, a valid one
through the locale formatter. -/
def niceTime (env : DateEnv) : Option String → String
  | none => "n/a"
  | some ts =>
    if ts = "" then "n/a"
    else
      match env.parse ts with
      | none => ts
      | some t => env.format t

/-- A rendered detail section: a title plus label/value items. -/
structure Section where
  title : String
  items : List (String × String)
deriving DecidableEq

/-- The filter/map body of `addSection`: keep the entries whose value
passes `isUseful` and convert each surviving value to its display
string. -/
def sectionItems (entries : List (String × Option String)) : List (String × String) :=
  (entries.filter (fun e => isUsefulOpt e.2)).map (fun e => (e.1, e.2.getD ""))

/-- `addSection` (`src/app/page.tsx` lines 152-157): push the section only
when at least one entry survives the filter. -/
def addSection (title : String) (entries : List (String × Option String)) : List Section :=
  if (sectionItems entries).isEmpty then []
  else [{ title := title, items := sectionItems entries }]

/-- The section catalog of `detailSections` (`src/app/page.tsx`
lines 144-195) applied to one record. -/
def buildSections (env : DateEnv) (r : Handoff) : List Section :=
  addSection "Core"
    [("Phase", r.phase), ("Client", r.client_name), ("Reported by", r.reported_by),
     ("Role", r.reported_role), ("Priority", r.priority), ("Budget", r.budget),
     ("Created", some (niceTime env (some r.created_at)))] ++
  addSection "Sales info"
    [("Pain points", r.pain_points), ("AI models discussed", r.ai_models_discussed)] ++
  addSection "Solutions info"
    [("Technical constraints", r.technical_constraints), ("API info", r.api_information),
     ("Edge cases", r.edge_cases)] ++
  addSection "Engineering info"
    [("Latency requirements", r.latency_requirements), ("GPU cost notes", r.gpu_cost_notes),
     ("Docker tag", r.docker_tag)] ++
  addSection "Product info"
    [("Performance metrics", r.performance_metrics), ("Pilot results", r.pilot_results),
     ("Secret sauce notes", r.secret_sauce_notes)] ++
  addSection "Summary" [("Summary", r.summary)]

/-- The grouping key used by `stats` (`src/app/page.tsx` line 137):
`(r.phase || "Unknown").trim()` — the default applies only when the raw
phase is absent or the empty string (both falsy), and the trim runs after
the default. -/
def phaseKey (v : Option String) : String :=
  jsTrim (match v with
          | none => "Unknown"
          | some p => if p = "" then "Unknown" else p)

/-- A value stored in the plain object `byPhase`: either a genuine count,
or the corrupted value produced when `(byPhase[p] || 0) + 1` reads a
truthy function inherited from `Object.prototype` and `+ 1` concatenates:
the resulting string is implementation-dependent (function source text),
abstracted here as `junk`; it is a non-empty string, so it stays truthy
and every later "increment" concatenates again. -/
inductive JVal where
  | num (n : Nat)
  | junk
deriving DecidableEq

/-- `(v || 0) + 1` on a value read from an own property: a count
increments (a count of 0 is falsy, but `(0 || 0) + 1 = 1` as well); the
corrupted string concatenates `"1"` and stays corrupted. -/
def incJS : JVal → JVal
  | .num n => .num (n + 1)
  | .junk => .junk

/-- The own property names of `Object.prototype` (ECMA-262, Annex B
included) other than the `__proto__` accessor.  Reading one of these keys
from a fresh `{}` with no such own property yields the inherited
function, which is truthy. -/
def protoProps : List String :=
  ["constructor", "hasOwnProperty", "isPrototypeOf", "propertyIsEnumerable",
   "toLocaleString", "toString", "valueOf", "__defineGetter__", "__defineSetter__",
   "__lookupGetter__", "__lookupSetter__"]

/-- `byPhase[p] = (byPhase[p] || 0) + 1` on the own-property list for a
key other than `"__proto__"`: an existing own property is replaced by its
increment in place; a missing one is created at the end of the insertion
order — with value 1 when the read fell through to `undefined`, and with
the corrupted value when the read hit an inherited `Object.prototype`
function. -/
def bumpOwn (p : String) : List (String × JVal) → List (String × JVal)
  | [] => [(p, if protoProps.contains p then .junk else .num 1)]
  | (q, v) :: rest => if q = p then (q, incJS v) :: rest else (q, v) :: bumpOwn p rest

/-- `byPhase[p] = (byPhase[p] || 0) + 1`: an assignment to the key
`"__proto__"` invokes the inherited accessor setter, which ignores a
primitive value — no own property is ever created; any other key goes
through `bumpOwn`. -/
def bump (p : String) (l : List (String × JVal)) : List (String × JVal) :=
  if p = "__proto__" then l else bumpOwn p l

/-- The `rows.forEach` accumulation of `stats` over the phase keys. -/
def entriesAux (acc : List (String × JVal)) : List Handoff → List (String × JVal)
  | [] => acc
  | r :: rs => entriesAux (bump (phaseKey r.phase) acc) rs

/-- The own properties of `byPhase`, in insertion order, after processing
all rows. -/
def entriesOf (rows : List Handoff) : List (String × JVal) :=
  entriesAux [] rows

/-- The numeric value of a decimal digit string. -/
def digitsVal (l : List Char) : Nat :=
  l.foldl (fun n c => n * 10 + (c.toNat - 48)) 0

/-- Whether a string is a JavaScript array-index property key: the
canonical decimal representation (no leading zero except `"0"` itself) of
an integer below 2^32 - 1. -/
def isIndexKey (s : String) : Bool :=
  match s.data with
  | [] => false
  | c :: cs =>
    (c :: cs).all Char.isDigit && (c != '0' || cs.isEmpty) &&
      decide (digitsVal (c :: cs) < 4294967295)

/-- The numeric value of an index key (used only to order index keys). -/
def keyNum (s : String) : Nat :=
  digitsVal s.data

/-- Insertion into a list of index-key entries held in ascending numeric
key order. -/
def insertAsc (x : String × JVal) : List (String × JVal) → List (String × JVal)
  | [] => [x]
  | y :: ys => if keyNum y.1 ≤ keyNum x.1 then y :: insertAsc x ys else x :: y :: ys

/-- Ascending numeric sort of the index-key entries. -/
def sortAsc : List (String × JVal) → List (String × JVal)
  | [] => []
  | x :: xs => insertAsc x (sortAsc xs)

/-- `Object.entries(byPhase)`: the own enumerable properties in
JavaScript enumeration order — array-index keys first, in ascending
numeric order, then the remaining string keys in insertion (creation)
order. -/
def jsEntries (l : List (String × JVal)) : List (String × JVal) :=
  sortAsc (l.filter (fun e => isIndexKey e.1)) ++
    l.filter (fun e => !isIndexKey e.1)

/-- The comparator `(a, b) => b[1] - a[1]` deciding that an earlier entry
`y` stays strictly before a later entry `x`: both values coerce to
numbers and `y`'s is larger.  A corrupted value coerces to NaN, which
each comparison treats as equal (so this function returns false); with
corrupted values present the comparator is inconsistent and the engine's
sort order is implementation-defined — the model then fixes one order,
and every ordering theorem below assumes no corrupted values. -/
def jgt : JVal → JVal → Bool
  | .num a, .num b => decide (b < a)
  | _, _ => false

/-- Stable insertion of one entry into a value-descending list, matching
the stable `Array.prototype.sort`: an entry moves past another only when
the other compares strictly larger. -/
def insertDesc (x : String × JVal) : List (String × JVal) → List (String × JVal)
  | [] => [x]
  | y :: ys => if jgt y.2 x.2 then y :: insertDesc x ys else x :: y :: ys

/-- Stable sort of the entry list by descending value. -/
def sortDesc : List (String × JVal) → List (String × JVal)
  | [] => []
  | x :: xs => insertDesc x (sortDesc xs)

/-- `topPhase` of `stats` (`src/app/page.tsx` line 140):
`Object.entries(byPhase).sort((a, b) => b[1] - a[1])[0]?.[0] ?? "n/a"`. -/
def topPhase (rows : List Handoff) : String :=
  match (sortDesc (jsEntries (entriesOf rows))).head? with
  | some e => e.1
  | none => "n/a"

/-- The summarizer result `{ total, topPhase }`. -/
structure Stats where
  total : Nat
  topPhase : String
deriving DecidableEq

/-- `stats` (`src/app/page.tsx` lines 133-142). -/
def stats (rows : List Handoff) : Stats :=
  { total := rows.length, topPhase := topPhase rows }

/-- The value recorded for key `q` among the own properties (`none` when
the key was never stored). -/
def lookupJS (l : List (String × JVal)) (q : String) : Option JVal :=
  (l.find? (fun e => e.1 == q)).map Prod.snd

/-- Numeric shadow of `bumpOwn`, describing the accumulation on inputs
whose keys avoid the inherited `Object.prototype` properties. -/
def bumpOwnNat (p : String) : List (String × Nat) → List (String × Nat)
  | [] => [(p, 1)]
  | (q, n) :: rest => if q = p then (q, n + 1) :: rest else (q, n) :: bumpOwnNat p rest

/-- Numeric shadow of `bump` (it swallows `"__proto__"` as well). -/
def bumpNat (p : String) (l : List (String × Nat)) : List (String × Nat) :=
  if p = "__proto__" then l else bumpOwnNat p l

/-- Numeric shadow of `entriesAux`. -/
def entriesAuxNat (acc : List (String × Nat)) : List Handoff → List (String × Nat)
  | [] => acc
  | r :: rs => entriesAuxNat (bumpNat (phaseKey r.phase) acc) rs

/-- Numeric shadow of `entriesOf`. -/
def entriesOfNat (rows : List Handoff) : List (String × Nat) :=
  entriesAuxNat [] rows

/-- Numeric shadow of `insertAsc`. -/
def insertAscNat (x : String × Nat) : List (String × Nat) → List (String × Nat)
  | [] => [x]
  | y :: ys => if keyNum y.1 ≤ keyNum x.1 then y :: insertAscNat x ys else x :: y :: ys

/-- Numeric shadow of `sortAsc`. -/
def sortAscNat : List (String × Nat) → List (String × Nat)
  | [] => []
  | x :: xs => insertAscNat x (sortAscNat xs)

/-- Numeric shadow of `jsEntries`. -/
def jsEntriesNat (l : List (String × Nat)) : List (String × Nat) :=
  sortAscNat (l.filter (fun e => isIndexKey e.1)) ++
    l.filter (fun e => !isIndexKey e.1)

/-- Numeric shadow of `insertDesc`. -/
def insertDescNat (x : String × Nat) : List (String × Nat) → List (String × Nat)
  | [] => [x]
  | y :: ys => if y.2 > x.2 then y :: insertDescNat x ys else x :: y :: ys

/-- Numeric shadow of `sortDesc`. -/
def sortDescNat : List (String × Nat) → List (String × Nat)
  | [] => []
  | x :: xs => insertDescNat x (sortDescNat xs)

/-- Numeric shadow of `topPhase`. -/
def topPhaseNat (rows : List Handoff) : String :=
  match (sortDescNat (jsEntriesNat (entriesOfNat rows))).head? with
  | some e => e.1
  | none => "n/a"

/-- Embedding of a numeric entry list into stored-value entries. -/
def mapNum (l : List (String × Nat)) : List (String × JVal) :=
  l.map (fun e => (e.1, JVal.num e.2))

/-- The largest count occurring in a numeric entry list (0 when empty). -/
def maxCount (l : List (String × Nat)) : Nat :=
  l.foldr (fun e m => max e.2 m) 0

/-- The first entry of the list attaining the maximal count, computed by a
direct scan. -/
def firstMax : List (String × Nat) → Option (String × Nat)
  | [] => none
  | x :: xs =>
    match firstMax xs with
    | none => some x
    | some m => if m.2 > x.2 then some m else some x

/-- Modelled from the amended claim: the top category is the first entry,
in `Object.entries` enumeration order, whose count equals the maximum
(`"n/a"` when there are no entries).  Stated from those words, over the
numeric shadow, to be compared with `topPhase`, which is translated from
the code. -/
def topPhaseEnum (rows : List Handoff) : String :=
  match (jsEntriesNat (entriesOfNat rows)).find?
      (fun e => e.2 == maxCount (jsEntriesNat (entriesOfNat rows))) with
  | some e => e.1
  | none => "n/a"

/-- Modelled from the spec: the top category is "the phase value with the
highest occurrence count; ties broken by first-encountered order in the
input sequence", i.e. the first stored entry (in insertion order) whose
count equals the maximum, with `"n/a"` for an empty input.  Stated from
the spec's words to be compared with `topPhase`. -/
def topPhaseFirstMax (rows : List Handoff) : String :=
  match (entriesOfNat rows).find? (fun e => e.2 == maxCount (entriesOfNat rows)) with
  | some e => e.1
  | none => "n/a"

/-- Adding `c` further occurrences to an optional stored count (`none`
stands for a key never stored). -/
def addNat : Option Nat → Nat → Option Nat
  | none, 0 => none
  | none, c + 1 => some (c + 1)
  | some n, c => some (n + c)

/-- An optional count viewed as an optional stored value. -/
def optNum : Option Nat → Option JVal
  | none => none
  | some n => some (.num n)

/-- The row title of the list view (`src/app/page.tsx` lines 313-316):
`(r.phase && r.phase !== "n/a" ? r.phase : "Unknown") +
 (r.client_name ? " — " + r.client_name : "")`. -/
def rowTitle (phase clientName : Option String) : String :=
  (match phase with
   | none => "Unknown"
   | some p => if p = "" then "Unknown" else if p = "n/a" then "Unknown" else p) ++
  (match clientName with
   | none => ""
   | some c => if c = "" then "" else " — " ++ c)

/-- The component state of `Home` that the loading, selection and sign-off
logic reads and writes (`src/app/page.tsx` lines 60-71). -/
structure UIState where
  rows : List Handoff := []
  selectedId : Option String := none
  selectedSignoffs : List Signoff := []
  loading : Bool := false
  enableSignoff : Bool := false
  signName : String := ""
  signRole : String := ""
  signPhase : String := ""
  signNotes : String := ""
  signSaving : Bool := false
deriving DecidableEq

/-- The `selected` memo (`src/app/page.tsx` lines 73-76). -/
def selectedOf (s : UIState) : Option Handoff :=
  s.selectedId.bind (fun i => s.rows.find? (fun r => r.id == i))

/-- The state left by `load` (`src/app/page.tsx` lines 78-99) once the
gateway call has completed with the given result: on error the rows are
cleared and the selection reset; on success the rows are replaced and, if
nothing was selected, the first row becomes selected. -/
def load (res : Except Unit (List Handoff)) (s : UIState) : UIState :=
  match res with
  | .error _ => { s with rows := [], selectedId := none, loading := false }
  | .ok data =>
    { s with rows := data,
             selectedId :=
               match s.selectedId, data with
               | none, d :: _ => some d.id
               | _, _ => s.selectedId,
             loading := false }

/-- The state left by `loadSignoffs` (`src/app/page.tsx` lines 101-115)
once the gateway call has completed with the given result. -/
def loadSignoffs (res : Except Unit (List Signoff)) (s : UIState) : UIState :=
  match res with
  | .error _ => { s with selectedSignoffs := [] }
  | .ok data => { s with selectedSignoffs := data }

/-- A user edit of the sign-off phase input (`src/app/page.tsx`
line 433). -/
def editPhase (v : String) (s : UIState) : UIState :=
  { s with signPhase := v }

/-- Selecting a record: `setSelectedId` plus the synchronous part of the
selection effect (`src/app/page.tsx` lines 122-131) — the phase prefill
`if (phase && !signPhase) setSignPhase(phase)`.  The `loadSignoffs` fetch
the effect also starts is a separate gateway call, modelled by a later
`loadSignoffs` transition. -/
def selectRecord (id : String) (s : UIState) : UIState :=
  match (s.rows.find? (fun r => r.id == id)).bind Handoff.phase with
  | some p =>
    if p ≠ "" ∧ s.signPhase = "" then { s with selectedId := some id, signPhase := p }
    else { s with selectedId := some id }
  | none => { s with selectedId := some id }

/-- Outcome of a `submitSignoff` invocation. -/
inductive SubmitOutcome where
  | noSelection
  | validationError
  | persistenceError
  | success
deriving DecidableEq

/-- The row sent to the gateway insert by `submitSignoff`
(`src/app/page.tsx` lines 211-217). -/
structure InsertRow where
  handoff_id : String
  signed_by_name : String
  signed_by_role : String
  signed_for_phase : String
  notes : Option String := none
deriving DecidableEq

/-- `submitSignoff` (`src/app/page.tsx` lines 197-231): no-op without a
selection; validation of the trimmed name/role/phase before any write;
otherwise the insert row is issued and, on success, the form is reset.
The second component records the insert call sent to the gateway (`none`
when no call was made); `res` is the gateway's reply to that call. -/
def submitSignoff (res : Except Unit Unit) (s : UIState) :
    SubmitOutcome × Option InsertRow × UIState :=
  match selectedOf s with
  | none => (.noSelection, none, s)
  | some sel =>
    if jsTrim s.signName = "" ∨ jsTrim s.signRole = "" ∨ jsTrim s.signPhase = "" then
      (.validationError, none, s)
    else
      let row : InsertRow :=
        { handoff_id := sel.id,
          signed_by_name := jsTrim s.signName,
          signed_by_role := jsTrim s.signRole,
          signed_for_phase := jsTrim s.signPhase,
          notes := if jsTrim s.signNotes = "" then none else some (jsTrim s.signNotes) }
      match res with
      | .error _ => (.persistenceError, some row, { s with signSaving := false })
      | .ok _ =>
        (.success, some row,
         { s with signSaving := false, enableSignoff := false, signNotes := "" })

/-- Concrete records, environments and row lists used by the closed
witness and counterexample statements below. -/
def recA : Handoff := { id := "a", created_at := "t1", phase := some "Sales" }

def recB : Handoff := { id := "b", created_at := "t2", phase := some "Eng" }

def wsRec : Handoff := { id := "w", created_at := "t3", phase := some "   " }

def naRec : Handoff := { id := "n", created_at := "t4", phase := some " n/a " }

/-- A record whose phase key is the array-index string "1". -/
def idxRec1 : Handoff := { id := "x1", created_at := "v1", phase := some "1" }

/-- A record whose phase key is the array-index string "0". -/
def idxRec0 : Handoff := { id := "x0", created_at := "v2", phase := some "0" }

/-- A record whose phase key is `"__proto__"`, which the object write
swallows. -/
def protoRec : Handoff := { id := "pr", created_at := "t5", phase := some "__proto__" }

/-- A record whose phase key names an inherited `Object.prototype`
member, corrupting its stored value. -/
def tsRec : Handoff := { id := "ts", created_at := "t6", phase := some "toString" }

/-- The three-record input of the tie-break scenario: phases
"Sales", "Eng", "Sales" in that order. -/
def c8rows : List Handoff :=
  [{ id := "1", created_at := "u1", phase := some "Sales" },
   { id := "2", created_at := "u2", phase := some "Eng" },
   { id := "3", created_at := "u3", phase := some "Sales" }]

/-- A date environment whose parser rejects every timestamp, used to
evaluate the section builder on concrete inputs. -/
def rejectEnv : DateEnv := { parse := fun _ => none, format := fun _ => "" }

/-- A date environment that accepts every timestamp and formats it as a
fixed locale string, used to instantiate the C6 scenario. -/
def okEnv : DateEnv :=
  { parse := fun _ => some 0, format := fun _ => "1/5/2024, 10:00:00 AM" }

/-- The C6 scenario record: a valid timestamp, phase "Engineering",
GPU cost notes "low", one sentinel field, everything else absent. -/
def engRec : Handoff :=
  { id := "h1", created_at := "2024-01-05T10:00:00Z",
    phase := some "Engineering", gpu_cost_notes := some "low",
    client_name := some "n/a" }

/-- C1: the Value Classifier. `isUseful` rejects null/undefined, rejects a
string exactly when its trimmed, lowercased form is empty or a sentinel
token (so it rejects "", "n/a", "NA", "UNDEFINED", "  N/A  ", "null"),
and accepts every non-string, non-nullish value. -/
theorem C1_value_classifier :
    isUseful .null = false ∧ isUseful .undef = false ∧
    (∀ v : String, isUseful (.str v) = false ↔
      (jsLower (jsTrim v) = "" ∨ jsLower (jsTrim v) = "n/a" ∨ jsLower (jsTrim v) = "na" ∨
       jsLower (jsTrim v) = "null" ∨ jsLower (jsTrim v) = "undefined")) ∧
    isUseful (.str "") = false ∧ isUseful (.str "n/a") = false ∧
    isUseful (.str "NA") = false ∧ isUseful (.str "UNDEFINED") = false ∧
    isUseful (.str "  N/A  ") = false ∧ isUseful (.str "null") = false ∧
    isUseful (.str "ship it") = true ∧ isUseful .obj = true := by
  refine ⟨rfl, rfl, ?_, by decide, by decide, by decide, by decide, by decide, by decide,
    by decide, rfl⟩
  intro v
  simp [isUseful]
  tauto

/-- C1 witness: the classifier evaluated through the general statement at
the concrete string " NA ". -/
theorem C1_witness : isUseful (.str " NA ") = false :=
  (C1_value_classifier.2.2.1 " NA ").mpr (by decide)

/-- C10: the list-row title falls back to "Unknown" exactly for an
absent/empty phase or the literal string "n/a"; other sentinel spellings
("NA", "N/A", "  n/a  ") are displayed verbatim even though `isUseful`
classifies them as placeholders — the title fallback is not the
`isUseful` predicate. -/
theorem C10_row_title :
    rowTitle none none = "Unknown" ∧
    rowTitle (some "") none = "Unknown" ∧
    rowTitle (some "n/a") none = "Unknown" ∧
    (∀ p, p ≠ "" → p ≠ "n/a" → rowTitle (some p) none = p) ∧
    rowTitle (some "NA") none = "NA" ∧ isUseful (.str "NA") = false ∧
    rowTitle (some "N/A") none = "N/A" ∧ isUseful (.str "N/A") = false ∧
    rowTitle (some "  n/a  ") none = "  n/a  " ∧ isUseful (.str "  n/a  ") = false := by
  refine ⟨rfl, by decide, by decide, ?_, by decide, by decide, by decide, by decide,
    by decide, by decide⟩
  intro p h1 h2
  simp [rowTitle, h1, h2]

/-- C10 witness: the general title clause applied at the concrete phase
"Sales". -/
theorem C10_witness : rowTitle (some "Sales") none = "Sales" :=
  C10_row_title.2.2.2.1 "Sales" (by decide) (by decide)

/-- C5: a submission whose trimmed name, role, or phase is empty returns a
validation error, issues no gateway insert, and leaves the state
untouched — regardless of the gateway result that would have answered an
insert. -/
theorem C5_submit_validation (s : UIState) (res : Except Unit Unit)
    (hsel : selectedOf s ≠ none)
    (hempty : jsTrim s.signName = "" ∨ jsTrim s.signRole = "" ∨ jsTrim s.signPhase = "") :
    submitSignoff res s = (.validationError, none, s) := by
  cases h : selectedOf s with
  | none => exact absurd h hsel
  | some sel =>
    simp only [submitSignoff, h]
    rw [if_pos hempty]

/-- C5 witness: a concrete state with a selected record and an empty role
is rejected with no insert issued. -/
theorem C5_witness :
    (selectedOf { rows := [recA], selectedId := some "a", signName := "Dee",
                  signRole := "  ", signPhase := "Sales" } ≠ none) ∧
    submitSignoff (.ok ())
      { rows := [recA], selectedId := some "a", signName := "Dee",
        signRole := "  ", signPhase := "Sales" } =
      (.validationError, none,
       { rows := [recA], selectedId := some "a", signName := "Dee",
         signRole := "  ", signPhase := "Sales" }) :=
  ⟨by decide,
   C5_submit_validation _ (.ok ()) (by decide) (by decide)⟩

/-- C3 counterexample: the claim that a failed backing-store call leaves
all previously loaded state unchanged is false — a failed record-list
reload clears the loaded rows and the selection. -/
theorem C3_counterexample :
    ({ rows := [recA], selectedId := some "a" } : UIState).rows ≠ [] ∧
    (load (.error ()) { rows := [recA], selectedId := some "a" }).rows = [] ∧
    ({ rows := [recA], selectedId := some "a" } : UIState).selectedId ≠ none ∧
    (load (.error ()) { rows := [recA], selectedId := some "a" }).selectedId = none := by
  decide

/-- C3 amended: every backing-store failure is scoped to its own
operation, but does not preserve all prior state — a failed record-list
load resets the loaded rows to empty and clears the selection (leaving
the sign-off list and every form field untouched); a failed sign-off load
resets the sign-off list to empty (leaving everything else untouched);
and a failed sign-off submission leaves the rows, the selection, the
sign-off list and every form field unchanged. -/
theorem C3_failure_scoping :
    (∀ s : UIState, load (.error ()) s =
      { s with rows := [], selectedId := none, loading := false }) ∧
    (∀ s : UIState, loadSignoffs (.error ()) s = { s with selectedSignoffs := [] }) ∧
    (∀ s : UIState,
      (submitSignoff (.error ()) s).2.2.rows = s.rows ∧
      (submitSignoff (.error ()) s).2.2.selectedId = s.selectedId ∧
      (submitSignoff (.error ()) s).2.2.selectedSignoffs = s.selectedSignoffs ∧
      (submitSignoff (.error ()) s).2.2.signName = s.signName ∧
      (submitSignoff (.error ()) s).2.2.signRole = s.signRole ∧
      (submitSignoff (.error ()) s).2.2.signPhase = s.signPhase ∧
      (submitSignoff (.error ()) s).2.2.signNotes = s.signNotes) := by
  refine ⟨fun s => rfl, fun s => rfl, fun s => ?_⟩
  cases h : selectedOf s with
  | none => simp [submitSignoff, h]
  | some sel =>
    by_cases hv : jsTrim s.signName = "" ∨ jsTrim s.signRole = "" ∨ jsTrim s.signPhase = ""
    · simp [submitSignoff, h, if_pos hv]
    · simp [submitSignoff, h, if_neg hv]

/-- C4 counterexample: the claim that the sign-off phase is defaulted only
on the first selection and never overwrites a later user edit is false —
after the first selection prefills "Sales" and the user clears the field,
selecting another record prefills again with "Eng". -/
theorem C4_counterexample :
    (selectRecord "a" { rows := [recA, recB] }).signPhase = "Sales" ∧
    (editPhase "" (selectRecord "a" { rows := [recA, recB] })).signPhase = "" ∧
    (selectRecord "b" (editPhase "" (selectRecord "a" { rows := [recA, recB] }))).signPhase
      = "Eng" := by
  decide

/-- C4 amended: a selection never overwrites a non-empty phase field (so a
non-empty user edit survives every later selection), and the default is
applied on any selection — not only the first — made while the field is
empty and the selected record carries a non-empty phase. -/
theorem C4_prefill (s : UIState) (id : String) :
    (s.signPhase ≠ "" → (selectRecord id s).signPhase = s.signPhase) ∧
    (∀ r p, s.signPhase = "" → s.rows.find? (fun r2 => r2.id == id) = some r →
      r.phase = some p → p ≠ "" → (selectRecord id s).signPhase = p) := by
  constructor
  · intro hne
    cases hb : (s.rows.find? (fun r2 => r2.id == id)).bind Handoff.phase with
    | none => simp [selectRecord, hb]
    | some p => simp [selectRecord, hb, hne]
  · intro r p hempty hfind hphase hp
    simp [selectRecord, hfind, Option.bind, hphase, hp, hempty]

/-- C4 witness: the amended prefill policy evaluated on concrete states —
a non-empty field survives a selection, and an empty field is prefilled
from the found record. -/
theorem C4_witness :
    (selectRecord "b" { rows := [recA, recB], signPhase := "Custom" }).signPhase = "Custom" ∧
    (selectRecord "a" { rows := [recA, recB] }).signPhase = "Sales" :=
  ⟨(C4_prefill { rows := [recA, recB], signPhase := "Custom" } "b").1 (by decide),
   (C4_prefill { rows := [recA, recB] } "a").2 recA "Sales" (by decide) (by decide)
     (by decide) (by decide)⟩

theorem lookupJS_cons (k : String) (v : JVal) (l : List (String × JVal)) (q : String) :
    lookupJS ((k, v) :: l) q = if k = q then some v else lookupJS l q := by
  by_cases h : k = q
  · simp [lookupJS, List.find?, beq_iff_eq.mpr h, h]
  · simp [lookupJS, List.find?, beq_eq_false_iff_ne.mpr h, h]

theorem lookupJS_bumpOwn_other {p q : String} (hpq : p ≠ q) (l : List (String × JVal)) :
    lookupJS (bumpOwn p l) q = lookupJS l q := by
  induction l with
  | nil => simp [bumpOwn, lookupJS, List.find?, beq_eq_false_iff_ne.mpr hpq]
  | cons a rest ih =>
    obtain ⟨k, v⟩ := a
    rw [bumpOwn]
    by_cases hk : k = p
    · have hkq : ¬ k = q := fun hc => hpq (hk.symm.trans hc)
      rw [if_pos hk, lookupJS_cons, lookupJS_cons, if_neg hkq, if_neg hkq]
    · rw [if_neg hk, lookupJS_cons, lookupJS_cons]
      by_cases hq : k = q
      · rw [if_pos hq, if_pos hq]
      · rw [if_neg hq, if_neg hq]
        exact ih

theorem lookupJS_bump_other {p q : String} (hpq : p ≠ q) (l : List (String × JVal)) :
    lookupJS (bump p l) q = lookupJS l q := by
  unfold bump
  split
  · rfl
  · exact lookupJS_bumpOwn_other hpq l

theorem lookupJS_bumpOwn_self (q : String) (l : List (String × JVal)) :
    lookupJS (bumpOwn q l) q =
      match lookupJS l q with
      | none => some (if protoProps.contains q then JVal.junk else JVal.num 1)
      | some v => some (incJS v) := by
  induction l with
  | nil => simp [bumpOwn, lookupJS_cons, lookupJS, List.find?]
  | cons a rest ih =>
    obtain ⟨k, v⟩ := a
    rw [bumpOwn]
    by_cases hk : k = q
    · rw [if_pos hk, lookupJS_cons, lookupJS_cons, if_pos hk, if_pos hk]
    · rw [if_neg hk, lookupJS_cons, lookupJS_cons, if_neg hk, if_neg hk]
      exact ih

theorem entriesAux_lookup (rows : List Handoff) (acc : List (String × JVal))
    (q : String) (m : Option Nat)
    (hq1 : q ≠ "__proto__") (hq2 : protoProps.contains q = false)
    (hacc : lookupJS acc q = optNum m) :
    lookupJS (entriesAux acc rows) q =
      optNum (addNat m (rows.countP (fun r => phaseKey r.phase == q))) := by
  induction rows generalizing acc m with
  | nil =>
    simp only [entriesAux, List.countP_nil]
    cases m with
    | none => simpa [addNat] using hacc
    | some n => simpa [addNat] using hacc
  | cons r rs ih =>
    simp only [entriesAux, List.countP_cons]
    by_cases hp : phaseKey r.phase = q
    · have hpred : (phaseKey r.phase == q) = true := beq_iff_eq.mpr hp
      rw [hpred, if_pos rfl, hp]
      cases m with
      | none =>
        have hb : lookupJS (bump q acc) q = optNum (some 1) := by
          unfold bump
          rw [if_neg hq1, lookupJS_bumpOwn_self, hacc, hq2]
          simp [optNum]
        rw [ih (bump q acc) (some 1) hb]
        simp [addNat, optNum]
        omega
      | some n =>
        have hb : lookupJS (bump q acc) q = optNum (some (n + 1)) := by
          unfold bump
          rw [if_neg hq1, lookupJS_bumpOwn_self, hacc]
          simp [optNum, incJS]
        rw [ih (bump q acc) (some (n + 1)) hb]
        simp [addNat, optNum]
        omega
    · have hpred : (phaseKey r.phase == q) = false := beq_eq_false_iff_ne.mpr hp
      rw [hpred, if_neg (by simp), Nat.add_zero]
      have hb : lookupJS (bump (phaseKey r.phase) acc) q = optNum m := by
        rw [lookupJS_bump_other hp]
        exact hacc
      exact ih (bump (phaseKey r.phase) acc) m hb

theorem entriesOf_lookup (rows : List Handoff) (q : String)
    (hq1 : q ≠ "__proto__") (hq2 : protoProps.contains q = false) :
    lookupJS (entriesOf rows) q =
      (if rows.countP (fun r => phaseKey r.phase == q) = 0 then none
       else some (JVal.num (rows.countP (fun r => phaseKey r.phase == q)))) := by
  have h := entriesAux_lookup rows [] q none hq1 hq2 rfl
  rw [entriesOf, h]
  cases hc : rows.countP (fun r => phaseKey r.phase == q) with
  | zero => simp [addNat, optNum]
  | succ c => simp [addNat, optNum]

/-- C2 counterexample: a record whose phase is the whitespace-only string
"   " is counted under the empty-string key, not under "Unknown" — the
claim that blank-after-trim phases default to "Unknown" is false. -/
theorem C2_counterexample :
    entriesOf [wsRec] = [("", JVal.num 1)] ∧
    lookupJS (entriesOf [wsRec]) "Unknown" = none ∧
    lookupJS (entriesOf [wsRec]) "" = some (JVal.num 1) := by
  decide

/-- C2 amended: `stats` groups each record under the key
`(phase || "Unknown").trim()` — the "Unknown" default applies only when
the phase is absent or the empty string, while a whitespace-only phase is
counted under the empty string (the trim runs after the default) — and
for every key other than `"__proto__"` and the inherited
`Object.prototype` property names, the stored value is exactly the number
of records with that key.  A key of `"__proto__"` is never stored (the
inherited setter swallows the write), and a key naming an
`Object.prototype` member is stored with a corrupted non-numeric value,
not a count. -/
theorem C2_phase_counting :
    (∀ rows q, q ≠ "__proto__" → protoProps.contains q = false →
      lookupJS (entriesOf rows) q =
        (if rows.countP (fun r => phaseKey r.phase == q) = 0 then none
         else some (JVal.num (rows.countP (fun r => phaseKey r.phase == q))))) ∧
    phaseKey none = "Unknown" ∧
    phaseKey (some "") = "Unknown" ∧
    phaseKey (some "   ") = "" ∧
    (∀ p, p ≠ "" → phaseKey (some p) = jsTrim p) ∧
    (∀ l, bump "__proto__" l = l) ∧
    entriesOf [tsRec] = [("toString", JVal.junk)] := by
  refine ⟨entriesOf_lookup, by decide, by decide, by decide, ?_, ?_, by decide⟩
  · intro p hp
    simp [phaseKey, hp]
  · intro l
    simp [bump]

/-- C2 witness: the amended counting law evaluated on a concrete row list
at the ordinary key "Sales", and the trim clause at a concrete non-empty
phase. -/
theorem C2_witness :
    lookupJS (entriesOf [recA, recB, wsRec]) "Sales" = some (JVal.num 1) ∧
    phaseKey (some " Sales ") = jsTrim " Sales " :=
  ⟨C2_phase_counting.1 [recA, recB, wsRec] "Sales" (by decide) (by decide),
   C2_phase_counting.2.2.2.2.1 " Sales " (by decide)⟩

theorem maxCount_cons (x : String × Nat) (xs : List (String × Nat)) :
    maxCount (x :: xs) = max x.2 (maxCount xs) := rfl

theorem firstMax_eq_none (l : List (String × Nat)) : firstMax l = none ↔ l = [] := by
  cases l with
  | nil => simp [firstMax]
  | cons x xs =>
    simp only [firstMax]
    cases firstMax xs with
    | none => simp
    | some m =>
      by_cases hc : m.2 > x.2
      all_goals simp [hc]

theorem firstMax_cons_none {xs : List (String × Nat)} {x : String × Nat}
    (h : firstMax xs = none) : firstMax (x :: xs) = some x := by
  rw [firstMax, h]

theorem firstMax_cons_some {xs : List (String × Nat)} {x m : String × Nat}
    (h : firstMax xs = some m) :
    firstMax (x :: xs) = if m.2 > x.2 then some m else some x := by
  rw [firstMax, h]

theorem firstMax_mem {l : List (String × Nat)} {m : String × Nat}
    (h : firstMax l = some m) : m ∈ l := by
  induction l generalizing m with
  | nil => exact absurd h (by simp [firstMax])
  | cons x xs ih =>
    cases hf : firstMax xs with
    | none =>
      rw [firstMax_cons_none hf] at h
      simp only [Option.some.injEq] at h
      exact h ▸ List.mem_cons_self x xs
    | some m2 =>
      rw [firstMax_cons_some hf] at h
      by_cases hc : m2.2 > x.2
      · rw [if_pos hc] at h
        simp only [Option.some.injEq] at h
        exact h ▸ List.mem_cons_of_mem x (ih hf)
      · rw [if_neg hc] at h
        simp only [Option.some.injEq] at h
        exact h ▸ List.mem_cons_self x xs

theorem firstMax_count {l : List (String × Nat)} {m : String × Nat}
    (h : firstMax l = some m) : m.2 = maxCount l := by
  induction l generalizing m with
  | nil => exact absurd h (by simp [firstMax])
  | cons x xs ih =>
    cases hf : firstMax xs with
    | none =>
      have hxs : xs = [] := (firstMax_eq_none xs).mp hf
      rw [firstMax_cons_none hf] at h
      simp only [Option.some.injEq] at h
      subst hxs
      rw [← h, maxCount_cons]
      simp [maxCount]
    | some m2 =>
      have hm2 : m2.2 = maxCount xs := ih hf
      rw [firstMax_cons_some hf] at h
      by_cases hc : m2.2 > x.2
      · rw [if_pos hc] at h
        simp only [Option.some.injEq] at h
        rw [← h, maxCount_cons, Nat.max_def]
        split
        all_goals omega
      · rw [if_neg hc] at h
        simp only [Option.some.injEq] at h
        rw [← h, maxCount_cons, Nat.max_def]
        split
        all_goals omega

theorem sortDescNat_head (l : List (String × Nat)) :
    (sortDescNat l).head? = firstMax l := by
  induction l with
  | nil => rfl
  | cons x xs ih =>
    rw [sortDescNat, firstMax, ← ih]
    cases hs : sortDescNat xs with
    | nil => simp [insertDescNat]
    | cons y ys =>
      by_cases h : y.2 > x.2
      · simp [insertDescNat, h]
      · simp [insertDescNat, h]

theorem firstMax_eq_find (l : List (String × Nat)) :
    firstMax l = l.find? (fun e => e.2 == maxCount l) := by
  induction l with
  | nil => rfl
  | cons x xs ih =>
    cases hf : firstMax xs with
    | none =>
      have hxs : xs = [] := (firstMax_eq_none xs).mp hf
      subst hxs
      rw [firstMax_cons_none hf]
      simp [List.find?, maxCount]
    | some m =>
      have hm : m.2 = maxCount xs := firstMax_count hf
      rw [firstMax_cons_some hf]
      by_cases hc : m.2 > x.2
      · rw [if_pos hc]
        have hmax : maxCount (x :: xs) = maxCount xs := by
          rw [maxCount_cons, Nat.max_def]
          split
          all_goals omega
        have hpx : (x.2 == maxCount (x :: xs)) = false := by
          rw [hmax]
          exact beq_eq_false_iff_ne.mpr (by omega)
        rw [List.find?, hpx, hmax, ← ih, hf]
      · rw [if_neg hc]
        have hmax : maxCount (x :: xs) = x.2 := by
          rw [maxCount_cons, Nat.max_def]
          split
          all_goals omega
        have hpx : (x.2 == maxCount (x :: xs)) = true := by
          rw [hmax]
          exact beq_self_eq_true x.2
        rw [List.find?, hpx]

theorem maxCount_le {l : List (String × Nat)} {e : String × Nat} (h : e ∈ l) :
    e.2 ≤ maxCount l := by
  induction l with
  | nil => exact absurd h (List.not_mem_nil e)
  | cons x xs ih =>
    rw [maxCount_cons]
    rcases List.mem_cons.mp h with rfl | hmem
    · exact Nat.le_max_left _ _
    · exact Nat.le_trans (ih hmem) (Nat.le_max_right _ _)

theorem bumpOwnNat_ne_nil (p : String) (l : List (String × Nat)) : bumpOwnNat p l ≠ [] := by
  cases l with
  | nil => simp [bumpOwnNat]
  | cons a rest =>
    obtain ⟨k, n⟩ := a
    rw [bumpOwnNat]
    split
    all_goals simp

theorem bumpNat_ne_nil {acc : List (String × Nat)} (h : acc ≠ []) (p : String) :
    bumpNat p acc ≠ [] := by
  unfold bumpNat
  split
  · exact h
  · exact bumpOwnNat_ne_nil p acc

theorem entriesAuxNat_ne_nil (rows : List Handoff) (acc : List (String × Nat))
    (h : acc ≠ [] ∨ ∃ r ∈ rows, phaseKey r.phase ≠ "__proto__") :
    entriesAuxNat acc rows ≠ [] := by
  induction rows generalizing acc with
  | nil =>
    rcases h with h | ⟨r, hr, _⟩
    · exact h
    · exact absurd hr (List.not_mem_nil r)
  | cons r rs ih =>
    rw [entriesAuxNat]
    rcases h with h | ⟨r0, hr0, hk⟩
    · exact ih _ (Or.inl (bumpNat_ne_nil h _))
    · rcases List.mem_cons.mp hr0 with rfl | hmem
      · have hb : bumpNat (phaseKey r0.phase) acc ≠ [] := by
          unfold bumpNat
          rw [if_neg hk]
          exact bumpOwnNat_ne_nil _ _
        exact ih _ (Or.inl hb)
      · exact ih _ (Or.inr ⟨r0, hmem, hk⟩)

theorem bumpOwnNat_key_src {p : String} {l : List (String × Nat)} {e : String × Nat}
    (h : e ∈ bumpOwnNat p l) : e.1 = p ∨ ∃ a ∈ l, e.1 = a.1 := by
  induction l with
  | nil =>
    rw [bumpOwnNat] at h
    rcases List.mem_singleton.mp h with rfl
    exact Or.inl rfl
  | cons a rest ih =>
    obtain ⟨k, n⟩ := a
    rw [bumpOwnNat] at h
    by_cases hk : k = p
    · rw [if_pos hk] at h
      rcases List.mem_cons.mp h with rfl | hmem
      · exact Or.inl hk
      · exact Or.inr ⟨e, List.mem_cons_of_mem _ hmem, rfl⟩
    · rw [if_neg hk] at h
      rcases List.mem_cons.mp h with rfl | hmem
      · exact Or.inr ⟨(k, n), List.mem_cons_self _ _, rfl⟩
      · rcases ih hmem with hp | ⟨a2, ha2, he⟩
        · exact Or.inl hp
        · exact Or.inr ⟨a2, List.mem_cons_of_mem _ ha2, he⟩

theorem bumpNat_key_src {p : String} {l : List (String × Nat)} {e : String × Nat}
    (h : e ∈ bumpNat p l) : e.1 = p ∨ ∃ a ∈ l, e.1 = a.1 := by
  unfold bumpNat at h
  by_cases hp : p = "__proto__"
  · rw [if_pos hp] at h
    exact Or.inr ⟨e, h, rfl⟩
  · rw [if_neg hp] at h
    exact bumpOwnNat_key_src h

theorem entriesAuxNat_key_src {rows : List Handoff} {acc : List (String × Nat)}
    {e : String × Nat} (h : e ∈ entriesAuxNat acc rows) :
    (∃ a ∈ acc, e.1 = a.1) ∨ ∃ r ∈ rows, e.1 = phaseKey r.phase := by
  induction rows generalizing acc with
  | nil => exact Or.inl ⟨e, h, rfl⟩
  | cons r rs ih =>
    rw [entriesAuxNat] at h
    rcases ih h with ⟨a, ha, he⟩ | ⟨r2, hr2, he⟩
    · rcases bumpNat_key_src ha with hp | ⟨a2, ha2, he2⟩
      · exact Or.inr ⟨r, List.mem_cons_self _ _, he.trans hp⟩
      · exact Or.inl ⟨a2, ha2, he.trans he2⟩
    · exact Or.inr ⟨r2, List.mem_cons_of_mem _ hr2, he⟩

theorem phaseKey_na {v : Option String} (h : phaseKey v = "n/a") :
    ∃ p, v = some p ∧ jsTrim p = "n/a" := by
  cases v with
  | none => exact absurd h (by decide)
  | some p =>
    by_cases hp : p = ""
    · subst hp
      exact absurd h (by decide)
    · refine ⟨p, rfl, ?_⟩
      rw [← h]
      simp [phaseKey, hp]

theorem insertAscNat_ne_nil (x : String × Nat) (l : List (String × Nat)) :
    insertAscNat x l ≠ [] := by
  cases l with
  | nil => simp [insertAscNat]
  | cons y ys =>
    rw [insertAscNat]
    split
    all_goals simp

theorem sortAscNat_ne_nil {l : List (String × Nat)} (h : l ≠ []) : sortAscNat l ≠ [] := by
  cases l with
  | nil => exact absurd rfl h
  | cons x xs =>
    rw [sortAscNat]
    exact insertAscNat_ne_nil x (sortAscNat xs)

theorem jsEntriesNat_ne_nil {l : List (String × Nat)} (h : l ≠ []) :
    jsEntriesNat l ≠ [] := by
  cases l with
  | nil => exact absurd rfl h
  | cons x xs =>
    unfold jsEntriesNat
    intro hcon
    rw [List.append_eq_nil] at hcon
    obtain ⟨h1, h2⟩ := hcon
    by_cases hx : isIndexKey x.1
    · have hne : (x :: xs).filter (fun e => isIndexKey e.1) ≠ [] := by
        simp [List.filter_cons, hx]
      exact absurd h1 (sortAscNat_ne_nil hne)
    · have hne : (x :: xs).filter (fun e => !isIndexKey e.1) ≠ [] := by
        simp [List.filter_cons, hx]
      exact absurd h2 hne

theorem insertAscNat_mem {x e : String × Nat} {l : List (String × Nat)}
    (h : e ∈ insertAscNat x l) : e = x ∨ e ∈ l := by
  induction l with
  | nil =>
    rw [insertAscNat] at h
    rcases List.mem_singleton.mp h with rfl
    exact Or.inl rfl
  | cons y ys ih =>
    rw [insertAscNat] at h
    by_cases hc : keyNum y.1 ≤ keyNum x.1
    · rw [if_pos hc] at h
      rcases List.mem_cons.mp h with rfl | hmem
      · exact Or.inr (List.mem_cons_self _ _)
      · rcases ih hmem with h1 | h1
        · exact Or.inl h1
        · exact Or.inr (List.mem_cons_of_mem _ h1)
    · rw [if_neg hc] at h
      rcases List.mem_cons.mp h with rfl | hmem
      · exact Or.inl rfl
      · exact Or.inr hmem

theorem sortAscNat_mem {e : String × Nat} {l : List (String × Nat)}
    (h : e ∈ sortAscNat l) : e ∈ l := by
  induction l with
  | nil => exact absurd h (List.not_mem_nil e)
  | cons x xs ih =>
    rw [sortAscNat] at h
    rcases insertAscNat_mem h with rfl | hmem
    · exact List.mem_cons_self _ _
    · exact List.mem_cons_of_mem _ (ih hmem)

theorem jsEntriesNat_mem {e : String × Nat} {l : List (String × Nat)}
    (h : e ∈ jsEntriesNat l) : e ∈ l := by
  unfold jsEntriesNat at h
  rcases List.mem_append.mp h with h1 | h1
  · exact List.mem_of_mem_filter (sortAscNat_mem h1)
  · exact List.mem_of_mem_filter h1

theorem jsEntriesNat_id {l : List (String × Nat)}
    (h : ∀ e ∈ l, isIndexKey e.1 = false) : jsEntriesNat l = l := by
  unfold jsEntriesNat
  have h1 : l.filter (fun e => isIndexKey e.1) = [] :=
    List.filter_eq_nil_iff.mpr (fun a ha => by simp [h a ha])
  have h2 : l.filter (fun e => !isIndexKey e.1) = l :=
    List.filter_eq_self.mpr (fun a ha => by simp [h a ha])
  rw [h1, h2]
  rfl

theorem mapNum_bumpOwn {p : String} (hp : protoProps.contains p = false)
    (l : List (String × Nat)) : bumpOwn p (mapNum l) = mapNum (bumpOwnNat p l) := by
  induction l with
  | nil =>
    show bumpOwn p [] = mapNum (bumpOwnNat p [])
    rw [bumpOwn, bumpOwnNat, hp]
    rfl
  | cons a rest ih =>
    obtain ⟨k, n⟩ := a
    by_cases hk : k = p
    · simp [bumpOwn, bumpOwnNat, mapNum, hk, incJS]
    · simp only [mapNum, List.map_cons] at ih ⊢
      rw [bumpOwn, bumpOwnNat, if_neg hk, if_neg hk, List.map_cons]
      exact congrArg _ ih

theorem mapNum_bump {p : String} (hp : protoProps.contains p = false)
    (l : List (String × Nat)) : bump p (mapNum l) = mapNum (bumpNat p l) := by
  unfold bump bumpNat
  by_cases hpp : p = "__proto__"
  · rw [if_pos hpp, if_pos hpp]
  · rw [if_neg hpp, if_neg hpp]
    exact mapNum_bumpOwn hp l

theorem mapNum_entriesAux (rows : List Handoff) (acc : List (String × Nat))
    (h : ∀ r ∈ rows, protoProps.contains (phaseKey r.phase) = false) :
    entriesAux (mapNum acc) rows = mapNum (entriesAuxNat acc rows) := by
  induction rows generalizing acc with
  | nil => rfl
  | cons r rs ih =>
    rw [entriesAux, entriesAuxNat, mapNum_bump (h r (List.mem_cons_self _ _))]
    exact ih _ (fun r2 hr2 => h r2 (List.mem_cons_of_mem _ hr2))

theorem entriesOf_pure (rows : List Handoff)
    (h : ∀ r ∈ rows, protoProps.contains (phaseKey r.phase) = false) :
    entriesOf rows = mapNum (entriesOfNat rows) :=
  mapNum_entriesAux rows [] h

theorem mapNum_filter (p : String → Bool) (l : List (String × Nat)) :
    (mapNum l).filter (fun e => p e.1) = mapNum (l.filter (fun e => p e.1)) := by
  induction l with
  | nil => rfl
  | cons x xs ih =>
    by_cases h : p x.1
    · simp [mapNum, List.filter_cons, h] at ih ⊢
      exact ih
    · simp [mapNum, List.filter_cons, h] at ih ⊢
      exact ih

theorem mapNum_insertAsc (x : String × Nat) (l : List (String × Nat)) :
    insertAsc (x.1, JVal.num x.2) (mapNum l) = mapNum (insertAscNat x l) := by
  induction l with
  | nil => rfl
  | cons y ys ih =>
    by_cases h : keyNum y.1 ≤ keyNum x.1
    · simp only [mapNum, List.map_cons] at ih ⊢
      rw [insertAsc, insertAscNat, if_pos h, if_pos h, List.map_cons]
      exact congrArg _ ih
    · simp only [mapNum, List.map_cons]
      rw [insertAsc, insertAscNat, if_neg h, if_neg h]
      rfl

theorem mapNum_sortAsc (l : List (String × Nat)) :
    sortAsc (mapNum l) = mapNum (sortAscNat l) := by
  induction l with
  | nil => rfl
  | cons x xs ih =>
    show insertAsc (x.1, JVal.num x.2) (sortAsc (mapNum xs)) = _
    rw [ih, mapNum_insertAsc]
    rfl

theorem mapNum_insertDesc (x : String × Nat) (l : List (String × Nat)) :
    insertDesc (x.1, JVal.num x.2) (mapNum l) = mapNum (insertDescNat x l) := by
  induction l with
  | nil => rfl
  | cons y ys ih =>
    by_cases h : y.2 > x.2
    · have hb : jgt (JVal.num y.2) (JVal.num x.2) = true := by
        simp [jgt]
        exact h
      simp only [mapNum, List.map_cons] at ih ⊢
      rw [insertDesc, insertDescNat, if_pos hb, if_pos h, List.map_cons]
      exact congrArg _ ih
    · have hb : jgt (JVal.num y.2) (JVal.num x.2) = false := by
        simp [jgt]
        omega
      simp only [mapNum, List.map_cons]
      rw [insertDesc, insertDescNat, if_neg (by simp [hb]), if_neg h]
      rfl

theorem mapNum_sortDesc (l : List (String × Nat)) :
    sortDesc (mapNum l) = mapNum (sortDescNat l) := by
  induction l with
  | nil => rfl
  | cons x xs ih =>
    show insertDesc (x.1, JVal.num x.2) (sortDesc (mapNum xs)) = _
    rw [ih, mapNum_insertDesc]
    rfl

theorem mapNum_append (a b : List (String × Nat)) :
    mapNum (a ++ b) = mapNum a ++ mapNum b := by
  simp [mapNum]

theorem mapNum_jsEntries (l : List (String × Nat)) :
    jsEntries (mapNum l) = mapNum (jsEntriesNat l) := by
  unfold jsEntries jsEntriesNat
  rw [mapNum_filter (fun s => isIndexKey s), mapNum_filter (fun s => !isIndexKey s),
    mapNum_sortAsc, mapNum_append]

theorem topPhase_pure (rows : List Handoff)
    (h : ∀ r ∈ rows, protoProps.contains (phaseKey r.phase) = false) :
    topPhase rows = topPhaseNat rows := by
  unfold topPhase topPhaseNat
  rw [entriesOf_pure rows h, mapNum_jsEntries, mapNum_sortDesc]
  cases sortDescNat (jsEntriesNat (entriesOfNat rows)) with
  | nil => rfl
  | cons x xs => rfl

theorem topPhaseNat_eq_enum (rows : List Handoff) :
    topPhaseNat rows = topPhaseEnum rows := by
  unfold topPhaseNat topPhaseEnum
  rw [sortDescNat_head, firstMax_eq_find]

/-- C8 counterexample: the claim that a count tie is broken by
first-encountered input order is false for array-index phase keys —
with phases ["1", "0"] in that order (both count 1), `Object.entries`
enumerates "0" before "1", so the program reports "0", not the
first-encountered "1". -/
theorem C8_counterexample :
    phaseKey idxRec1.phase = "1" ∧ phaseKey idxRec0.phase = "0" ∧
    topPhase [idxRec1, idxRec0] = "0" ∧ topPhase [idxRec1, idxRec0] ≠ "1" := by
  decide

/-- C8 amended: the top category is an entry of maximal count, with ties
broken by `Object.entries` enumeration order — array-index keys first in
ascending numeric order, then the remaining keys in first-encounter
order.  For inputs whose phase keys avoid the inherited
`Object.prototype` names (whose corrupted values make the sort comparator
inconsistent), the result is the first maximal-count entry in enumeration
order; when the keys are additionally neither array indices nor
`"__proto__"`, ties are broken by first-encounter order as the original
claim said, and phases ["Sales", "Eng", "Sales"] yield
`{ total := 3, topPhase := "Sales" }`. -/
theorem C8_top_category :
    (∀ rows : List Handoff,
      (∀ r ∈ rows, protoProps.contains (phaseKey r.phase) = false) →
      topPhase rows = topPhaseEnum rows) ∧
    (∀ rows : List Handoff,
      (∀ r ∈ rows, protoProps.contains (phaseKey r.phase) = false ∧
        phaseKey r.phase ≠ "__proto__" ∧ isIndexKey (phaseKey r.phase) = false) →
      topPhase rows = topPhaseFirstMax rows) ∧
    (∀ rows : List Handoff, ∀ e ∈ jsEntriesNat (entriesOfNat rows),
      e.2 ≤ maxCount (jsEntriesNat (entriesOfNat rows))) ∧
    stats c8rows = { total := 3, topPhase := "Sales" } := by
  have henum : ∀ rows : List Handoff,
      (∀ r ∈ rows, protoProps.contains (phaseKey r.phase) = false) →
      topPhase rows = topPhaseEnum rows := by
    intro rows h
    rw [topPhase_pure rows h, topPhaseNat_eq_enum]
  refine ⟨henum, ?_, fun rows e he => maxCount_le he, by decide⟩
  intro rows h
  have hpp : ∀ r ∈ rows, protoProps.contains (phaseKey r.phase) = false :=
    fun r hr => (h r hr).1
  have hid : jsEntriesNat (entriesOfNat rows) = entriesOfNat rows := by
    apply jsEntriesNat_id
    intro e he
    rcases entriesAuxNat_key_src he with ⟨a, ha, _⟩ | ⟨r, hr, hkey⟩
    · exact absurd ha (List.not_mem_nil a)
    · rw [hkey]
      exact (h r hr).2.2
  rw [henum rows hpp]
  unfold topPhaseEnum topPhaseFirstMax
  rw [hid]

/-- C8 witness: both equality clauses and the maximality clause evaluated
on the concrete tie-break scenario rows. -/
theorem C8_witness :
    topPhase c8rows = topPhaseFirstMax c8rows ∧
    topPhase c8rows = topPhaseEnum c8rows ∧
    (("Sales", 2) ∈ jsEntriesNat (entriesOfNat c8rows)) ∧
    2 ≤ maxCount (jsEntriesNat (entriesOfNat c8rows)) :=
  ⟨C8_top_category.2.1 c8rows (by decide),
   C8_top_category.1 c8rows (by decide),
   by decide,
   C8_top_category.2.2.1 c8rows ("Sales", 2) (by decide)⟩

/-- C9 counterexample: the claim that a non-empty input yields "n/a" only
when some record's phase is literally "n/a" is false — a record whose
phase is " n/a " (with spaces, not the literal string) already produces
`topPhase = "n/a"`. -/
theorem C9_counterexample :
    ([naRec] : List Handoff) ≠ [] ∧ naRec.phase ≠ some "n/a" ∧
    topPhase [naRec] = "n/a" := by
  decide

/-- C9 amended: `stats` on the empty input is
`{ total := 0, topPhase := "n/a" }`.  On a non-empty input whose phase
keys avoid the inherited `Object.prototype` names and include at least
one key other than `"__proto__"`, the top category is the phase key of
one of the records, and it is "n/a" only when some record carries a phase
that trims to "n/a" (not necessarily the literal string).  A record whose
phase key is `"__proto__"` is never stored, so a non-empty input of only
such records also reports "n/a". -/
theorem C9_empty_summary :
    stats [] = { total := 0, topPhase := "n/a" } ∧
    (∀ rows : List Handoff,
      (∀ r ∈ rows, protoProps.contains (phaseKey r.phase) = false) →
      (∃ r ∈ rows, phaseKey r.phase ≠ "__proto__") →
      ∃ r ∈ rows, topPhase rows = phaseKey r.phase) ∧
    (∀ rows : List Handoff,
      (∀ r ∈ rows, protoProps.contains (phaseKey r.phase) = false) →
      (∃ r ∈ rows, phaseKey r.phase ≠ "__proto__") →
      topPhase rows = "n/a" →
      ∃ r ∈ rows, ∃ p, r.phase = some p ∧ jsTrim p = "n/a") ∧
    entriesOf [protoRec] = [] ∧ topPhase [protoRec] = "n/a" := by
  have key : ∀ rows : List Handoff,
      (∀ r ∈ rows, protoProps.contains (phaseKey r.phase) = false) →
      (∃ r ∈ rows, phaseKey r.phase ≠ "__proto__") →
      ∃ r ∈ rows, topPhase rows = phaseKey r.phase := by
    intro rows hp hex
    have h1 : entriesOfNat rows ≠ [] := entriesAuxNat_ne_nil rows [] (Or.inr hex)
    have h2 : jsEntriesNat (entriesOfNat rows) ≠ [] := jsEntriesNat_ne_nil h1
    cases hf : firstMax (jsEntriesNat (entriesOfNat rows)) with
    | none => exact absurd ((firstMax_eq_none _).mp hf) h2
    | some m =>
      have hmem : m ∈ entriesAuxNat [] rows := jsEntriesNat_mem (firstMax_mem hf)
      rcases entriesAuxNat_key_src hmem with ⟨a, ha, _⟩ | ⟨r, hr, hkey⟩
      · exact absurd ha (List.not_mem_nil a)
      · refine ⟨r, hr, ?_⟩
        rw [topPhase_pure rows hp]
        unfold topPhaseNat
        rw [sortDescNat_head, hf]
        exact hkey
  refine ⟨by decide, key, ?_, by decide, by decide⟩
  intro rows hp hex hna
  obtain ⟨r, hr, heq⟩ := key rows hp hex
  have hpk : phaseKey r.phase = "n/a" := by
    rw [← heq]
    exact hna
  obtain ⟨p, hp2, ht⟩ := phaseKey_na hpk
  exact ⟨r, hr, p, hp2, ht⟩

/-- C9 witness: the amended clauses evaluated at the concrete singleton
input whose record's phase trims to "n/a". -/
theorem C9_witness :
    topPhase [naRec] = "n/a" ∧
    (∃ r ∈ [naRec], topPhase [naRec] = phaseKey r.phase) ∧
    (∃ r ∈ [naRec], ∃ p, r.phase = some p ∧ jsTrim p = "n/a") :=
  ⟨by decide,
   C9_empty_summary.2.1 [naRec] (by decide) (by decide),
   C9_empty_summary.2.2.1 [naRec] (by decide) (by decide) (by decide)⟩

theorem addSection_nonempty {t : String} {e : List (String × Option String)}
    {sec : Section} (h : sec ∈ addSection t e) : sec.items ≠ [] := by
  unfold addSection at h
  by_cases hi : (sectionItems e).isEmpty
  · rw [if_pos hi] at h
    exact absurd h (List.not_mem_nil sec)
  · rw [if_neg hi] at h
    rcases List.mem_singleton.mp h with rfl
    intro hnil
    apply hi
    have h2 : sectionItems e = [] := hnil
    rw [h2]
    rfl

/-- C7: no section produced by `buildSections` has an empty item list — a
section all of whose fields fail the value classifier is omitted from the
output entirely. -/
theorem C7_no_empty_sections (env : DateEnv) (r : Handoff) (sec : Section)
    (hmem : sec ∈ buildSections env r) : sec.items ≠ [] := by
  unfold buildSections at hmem
  simp only [List.mem_append] at hmem
  rcases hmem with ((((h | h) | h) | h) | h) | h
  all_goals exact addSection_nonempty h

/-- C7 witness: the no-empty-section law evaluated at the concrete "Core"
section produced for `recA`. -/
theorem C7_witness :
    ((⟨"Core", [("Phase", "Sales"), ("Created", "t1")]⟩ : Section)
      ∈ buildSections rejectEnv recA) ∧
    (⟨"Core", [("Phase", "Sales"), ("Created", "t1")]⟩ : Section).items ≠ [] :=
  ⟨by decide, C7_no_empty_sections rejectEnv recA _ (by decide)⟩

/-- C6: for any record with a parseable, usefully-formatted creation
timestamp whose only meaningful optional fields are `phase =
"Engineering"` and `gpu_cost_notes = "low"`, the section builder returns
exactly the "Core" section (Phase and Created) followed by the
"Engineering info" section (GPU cost notes), and nothing else. -/
theorem C6_two_sections (env : DateEnv) (r : Handoff) (t : Int)
    (hphase : r.phase = some "Engineering")
    (hgpu : r.gpu_cost_notes = some "low")
    (hts : r.created_at ≠ "")
    (hparse : env.parse r.created_at = some t)
    (hfmt : isUseful (.str (env.format t)) = true)
    (hclient : isUsefulOpt r.client_name = false)
    (hrep : isUsefulOpt r.reported_by = false)
    (hrole : isUsefulOpt r.reported_role = false)
    (hpri : isUsefulOpt r.priority = false)
    (hbud : isUsefulOpt r.budget = false)
    (hpain : isUsefulOpt r.pain_points = false)
    (hai : isUsefulOpt r.ai_models_discussed = false)
    (htech : isUsefulOpt r.technical_constraints = false)
    (hapi : isUsefulOpt r.api_information = false)
    (hedge : isUsefulOpt r.edge_cases = false)
    (hlat : isUsefulOpt r.latency_requirements = false)
    (hdock : isUsefulOpt r.docker_tag = false)
    (hperf : isUsefulOpt r.performance_metrics = false)
    (hpilot : isUsefulOpt r.pilot_results = false)
    (hsecret : isUsefulOpt r.secret_sauce_notes = false)
    (hsum : isUsefulOpt r.summary = false) :
    buildSections env r =
      [{ title := "Core", items := [("Phase", "Engineering"), ("Created", env.format t)] },
       { title := "Engineering info", items := [("GPU cost notes", "low")] }] := by
  have hnice : niceTime env (some r.created_at) = env.format t := by
    simp only [niceTime]
    rw [if_neg hts, hparse]
  have hfmt2 : isUsefulOpt (some (env.format t)) = true := hfmt
  have hengphase : isUsefulOpt (some "Engineering") = true := by decide
  have hlow : isUsefulOpt (some "low") = true := by decide
  simp [buildSections, addSection, sectionItems, hphase, hgpu, hnice, hfmt2, hengphase,
    hlow, hclient, hrep, hrole, hpri, hbud, hpain, hai, htech, hapi, hedge, hlat, hdock,
    hperf, hpilot, hsecret, hsum, List.filter]

/-- C6 witness: the scenario evaluated on the concrete record and date
environment. -/
theorem C6_witness :
    buildSections okEnv engRec =
      [{ title := "Core",
         items := [("Phase", "Engineering"), ("Created", "1/5/2024, 10:00:00 AM")] },
       { title := "Engineering info", items := [("GPU cost notes", "low")] }] :=
  C6_two_sections okEnv engRec 0 rfl rfl (by decide) rfl (by decide) (by decide)
    (by decide) (by decide) (by decide) (by decide) (by decide) (by decide) (by decide)
    (by decide) (by decide) (by decide) (by decide) (by decide) (by decide) (by decide)
    (by decide)
